import Mathlib

/-!
Verification of the unredactor's core algorithms (src/unredact.py): the
raster region detector `find_boxes_on_page`, the dimension-class matcher and
raster replacement engine `apply_replacements`, the line reconstructor
`group_words_into_lines` / `build_line_text`, and the OCR-warning guards of
`create_html_from_text` / `show_unredacted_results`.  Document-unit and
pixel-derived coordinates are embedded as rationals; Python's `round`
(banker's rounding) and `int` (truncation) are modelled explicitly.
-/

namespace Unredact

/-- Python 3 `round(q)` on a rational: round half to even (banker's rounding). -/
def pyRound (q : ℚ) : ℤ :=
  let f := ⌊q⌋
  let r := q - f
  if r < 1/2 then f
  else if r > 1/2 then f + 1
  else if f % 2 = 0 then f else f + 1

/-- Python `round(q, 1)`: round to one decimal digit. -/
def round1 (q : ℚ) : ℚ := (pyRound (q * 10) : ℚ) / 10

/-- Python `int(q)`: truncation toward zero. -/
def pyInt (q : ℚ) : ℤ := if 0 ≤ q then ⌊q⌋ else ⌈q⌉

/-- An entry of `self.all_boxes` as built by `find_boxes_on_page`
(src/unredact.py lines 946-951): the document-space rect, the width/height
rounded to one decimal, and the page the box was detected on. -/
structure Box where
  x0 : ℚ
  y0 : ℚ
  x1 : ℚ
  y1 : ℚ
  width : ℚ
  height : ℚ
  page : ℕ
deriving DecidableEq, Repr

/-- A pixel-space bounding box `(x, y, w, h)` as returned by
`cv2.boundingRect` on a contour of the thresholded bitmap. -/
structure PixBox where
  x : ℕ
  y : ℕ
  w : ℕ
  h : ℕ
deriving DecidableEq, Repr

/-- The size filter of `find_boxes_on_page` (line 937):
`w > 20 and h > 10 and w < pix.width * 0.8 and h < pix.height * 0.8`. -/
def keepBox (pixWidth pixHeight : ℕ) (b : PixBox) : Bool :=
  decide (20 < b.w) && decide (10 < b.h) &&
  decide ((b.w : ℚ) < (pixWidth : ℚ) * (8/10)) &&
  decide ((b.h : ℚ) < (pixHeight : ℚ) * (8/10))

/-- Conversion of a kept pixel box to a document-space `Box`
(lines 938-951): coordinates are divided by the supersampling factor 2 with
no rounding; only the record's width/height are rounded to one decimal. -/
def boxToRegion (currentPage : ℕ) (b : PixBox) : Box :=
  let pdfX0 : ℚ := (b.x : ℚ) / 2
  let pdfY0 : ℚ := (b.y : ℚ) / 2
  let pdfX1 : ℚ := ((b.x : ℚ) + (b.w : ℚ)) / 2
  let pdfY1 : ℚ := ((b.y : ℚ) + (b.h : ℚ)) / 2
  ⟨pdfX0, pdfY0, pdfX1, pdfY1, round1 (pdfX1 - pdfX0), round1 (pdfY1 - pdfY0), currentPage⟩

/-- `find_boxes_on_page` after rendering and contour extraction (lines
933-951): keep each contour's bounding box that passes the size filter and
convert it to document space.  The rendering, thresholding (cutoff 50,
inverted) and `cv2.findContours` call are the Document Provider's side; the
contour boxes are this function's input. -/
def findBoxesOnPage (pixWidth pixHeight : ℕ) (currentPage : ℕ)
    (contours : List PixBox) : List Box :=
  (contours.filter (keepBox pixWidth pixHeight)).map (boxToRegion currentPage)

/-- The dimension-class test of `apply_replacements` (lines 1293-1294):
`abs(width - target_width) <= tolerance and abs(height - target_height) <= tolerance`.
The code's default tolerance is 2.0. -/
def boxMatches (b : Box) (targetWidth targetHeight tolerance : ℚ) : Bool :=
  decide (|b.width - targetWidth| ≤ tolerance) &&
  decide (|b.height - targetHeight| ≤ tolerance)

/-- One pixel edit performed on the rendered page image for a matching box
(lines 1302-1320): a white rectangle with black border over the box's rect
plus the replacement text, drawn at font size `int(min(height * 0.6, 12))`. -/
inductive DrawOp
  | whiteRectWithText (x0 y0 x1 y1 : ℚ) (text : String) (fontSize : ℤ)
deriving DecidableEq, Repr

/-- A page of the open document: either a page of the loaded source file, or
the image-backed page that `apply_replacements` substitutes (lines
1323-1338), carrying the page dimensions, the page whose 1x render was
edited, and the edits drawn into that render. -/
inductive Page
  | src (id : ℕ) (width height : ℚ)
  | imageBacked (width height : ℚ) (base : Page) (ops : List DrawOp)

def Page.width : Page → ℚ
  | .src _ w _ => w
  | .imageBacked w _ _ _ => w

def Page.height : Page → ℚ
  | .src _ _ h => h
  | .imageBacked _ h _ _ => h

/-- The draw operation `apply_replacements` performs for one matching box. -/
def drawOpFor (text : String) (b : Box) : DrawOp :=
  .whiteRectWithText b.x0 b.y0 b.x1 b.y1 text (pyInt (min (b.height * (6/10)) 12))

/-- `apply_replacements(target_width, target_height, text, tolerance)`
(lines 1268-1342): render the current page at 1x, draw a white rectangle and
centered text for every box of `all_boxes` within tolerance of the target
dimensions, and, only if at least one replacement occurred, delete the
current page and insert at the same index a new page of identical dimensions
backed by the edited image.  Returns the mutated page list and the count. -/
def applyReplacements (pages : List Page) (currentPage : ℕ) (allBoxes : List Box)
    (targetWidth targetHeight : ℚ) (text : String) (tolerance : ℚ) :
    List Page × ℕ :=
  let page := pages.getD currentPage (.src 0 0 0)
  let matched := allBoxes.filter (fun b => boxMatches b targetWidth targetHeight tolerance)
  let count := matched.length
  if 0 < count then
    (pages.set currentPage
        (.imageBacked page.width page.height page (matched.map (drawOpFor text))),
     count)
  else
    (pages, count)

/-- A word record as produced by `pdfplumber`'s `extract_words` with
`extra_attrs=["size", "fontname"]`: text, horizontal extent `x0..x1`,
vertical position `top..bottom`, and an optional font size. -/
structure Word where
  text : String
  x0 : ℚ
  x1 : ℚ
  top : ℚ
  bottom : ℚ
  size : Option ℚ
deriving DecidableEq, Repr

/-- The sort key of `group_words_into_lines` (line 963): lexicographic
`(top, x0)`. -/
def topX0LE (a b : Word) : Bool :=
  decide (a.top < b.top) || (decide (a.top = b.top) && decide (a.x0 ≤ b.x0))

/-- `sorted(words, key=lambda w: (w["top"], w["x0"]))` (line 963). -/
def sortWords (words : List Word) : List Word := words.mergeSort topX0LE

/-- The sweep loop of `group_words_into_lines` (lines 969-985): `current` is
the open cluster (always non-empty), `currentTop` its running average top.
A word whose top is within `lineTol` of the running average joins the
cluster and updates the average; otherwise the cluster is closed and a new
one opened. -/
def groupGo (lineTol : ℚ) : List Word → List Word → ℚ → List (List Word)
  | [], current, _ => [current]
  | w :: rest, current, currentTop =>
    if |w.top - currentTop| ≤ lineTol then
      let current' := current ++ [w]
      groupGo lineTol rest current'
        ((currentTop * ((current'.length : ℚ) - 1) + w.top) / (current'.length : ℚ))
    else
      current :: groupGo lineTol rest [w] w.top

/-- `group_words_into_lines(words, line_tol)` (lines 958-987). -/
def groupWordsIntoLines (words : List Word) (lineTol : ℚ) : List (List Word) :=
  match sortWords words with
  | [] => []
  | w :: rest => groupGo lineTol rest [w] w.top

/-- The sort key of `build_line_text` (line 991): `x0` ascending. -/
def x0LE (a b : Word) : Bool := decide (a.x0 ≤ b.x0)

/-- `sorted(line_words, key=lambda w: w["x0"])` (line 991). -/
def sortByX0 (ws : List Word) : List Word := ws.mergeSort x0LE

def qLE (a b : ℚ) : Bool := decide (a ≤ b)

def sortQ (l : List ℚ) : List ℚ := l.mergeSort qLE

/-- `sorted(l)[len(l) // 2]`: the upper-median selection used for the
representative font size and the line's top (lines 1002-1014). -/
def medianAt (l : List ℚ) : ℚ := (sortQ l).getD (l.length / 2) 0

/-- `" " * n` (empty for non-positive n, as in Python). -/
def spaces (n : ℤ) : String := String.mk (List.replicate n.toNat ' ')

/-- The separator emitted before a subsequent word in `build_line_text`
(lines 1029-1034), from the gap `word.x0 - prev_x1`: for a positive gap,
`max(min_spaces, int(round(gap / max(0.5, space_unit_pts))))` spaces;
otherwise one space if `gap > -space_unit_pts * 0.3`, else nothing. -/
def sepFor (spaceUnit : ℚ) (minSpaces : ℤ) (gap : ℚ) : String :=
  if 0 < gap then
    spaces (max minSpaces (pyRound (gap / max (1/2) spaceUnit)))
  else
    if -(spaceUnit * (3/10)) < gap then " " else ""

/-- One iteration of the loop of `build_line_text` (lines 1022-1038):
the accumulator carries the text built so far, `last_x1` and `prev_x1`
(both running maxima of the `x1` values seen). -/
def buildStep (spaceUnit : ℚ) (minSpaces : ℤ) (acc : String × ℚ × ℚ) (w : Word) :
    String × ℚ × ℚ :=
  let text := acc.1
  let lastX1 := acc.2.1
  let prevX1 := acc.2.2
  let gap := w.x0 - prevX1
  (text ++ sepFor spaceUnit minSpaces gap ++ w.text, max lastX1 w.x1, max prevX1 w.x1)

/-- `build_line_text(line_words, space_unit_pts, min_spaces)` (lines
989-1040).  Returns `none` for an empty group (the Python code would fail
indexing `line_words[0]`); otherwise the 5-tuple
`(text, first_x0, last_x1, top_med, font_size)` that the source returns. -/
def buildLineText (lineWords : List Word) (spaceUnit : ℚ) (minSpaces : ℤ) :
    Option (String × ℚ × ℚ × ℚ × ℚ) :=
  match sortByX0 lineWords with
  | [] => none
  | w0 :: rest =>
    let ws := w0 :: rest
    let sizes := ws.filterMap (fun w => w.size)
    let fontSize : ℚ :=
      if sizes = [] then
        let hs := ws.map (fun w => max 6 (w.bottom - w.top))
        if hs = [] then 10 else medianAt hs
      else medianAt sizes
    let topMed := medianAt (ws.map (fun w => w.top))
    let firstX0 := w0.x0
    let out := rest.foldl (buildStep spaceUnit minSpaces) (w0.text, w0.x1, w0.x1)
    some (out.1, firstX0, out.2.1, topMed, fontSize)

/-- The per-page body of `extract_lines_with_positions` (lines 1054-1063):
group the page's words into lines, rebuild each line's text, and keep, for
each line with non-blank text, only `(line_text, x0, top, font_size)` out of
the five values `build_line_text` returns. -/
def extractLinesOnPage (words : List Word) (lineTol spaceUnit : ℚ) (minSpaces : ℤ) :
    List (String × ℚ × ℚ × ℚ) :=
  (groupWordsIntoLines words lineTol).filterMap (fun lw =>
    match buildLineText lw spaceUnit minSpaces with
    | none => none
    | some (lineText, x0, _x1, top, fontSize) =>
      if lineText.trim = "" then none else some (lineText, x0, top, fontSize))

/-- A vector fill primitive as the spec's Document Provider enumerates them:
a bounding rect and an optional fill color in normalized channels. -/
structure FillPrim where
  x0 : ℚ
  y0 : ℚ
  x1 : ℚ
  y1 : ℚ
  fillColor : Option (List ℚ)
deriving DecidableEq, Repr

/-- Modelled from the spec: the vector region detector (spec §4.2) has no
implementation under src/ (unredact.py only ships the raster detector
`find_boxes_on_page`).  Per the spec's words, a primitive is kept iff its
rect's width and height both exceed 5 document units and every fill-color
channel (defaulting to `[0,0,0]` when unspecified) is strictly below 0.3. -/
def vectorKeep (p : FillPrim) : Bool :=
  decide (5 < p.x1 - p.x0) && decide (5 < p.y1 - p.y0) &&
  (p.fillColor.getD [0, 0, 0]).all (fun c => decide (c < 3/10))

/-- Modelled from the spec: the vector detection pass over a page's
enumerated fill primitives (spec §4.2). -/
def detectVectorRegions (prims : List FillPrim) : List FillPrim :=
  prims.filter vectorKeep

/-- The guard of the OCR warning block in `create_html_from_text`
(line 400): the warning is emitted under `if ocr_mode is False:`. -/
def createHtmlWarningIncluded (ocrMode : Bool) : Bool := !ocrMode

/-- The guard of the OCR warning lines in `show_unredacted_results`
(lines 746-748): inside `if results_by_page:`, the warning is emitted under
`if ocr_mode is False:`. -/
def showResultsWarningIncluded (hasResults : Bool) (ocrMode : Bool) : Bool :=
  hasResults && !ocrMode

/-- A word carrying only a vertical position, used for concrete instances. -/
def mkWord (t x : ℚ) : Word := ⟨"", x, x, t, t, none⟩

/-! Helper lemmas. -/

/-- Sorting a two-element list whose elements are already in order by `x0`
leaves it unchanged. -/
theorem sortByX0_pair (w1 w2 : Word) (h : w1.x0 ≤ w2.x0) :
    sortByX0 [w1, w2] = [w1, w2] := by
  simp [sortByX0, List.mergeSort, x0LE, h]

/-- The second and third accumulator components of `buildStep`'s fold
(`last_x1` and `prev_x1`) are running maxima of the `x1` values. -/
theorem buildStep_foldl_proj (su : ℚ) (ms : ℤ) (rest : List Word) :
    ∀ (t : String) (a b : ℚ),
      (rest.foldl (buildStep su ms) (t, a, b)).2.1 =
        rest.foldl (fun acc w => max acc w.x1) a ∧
      (rest.foldl (buildStep su ms) (t, a, b)).2.2 =
        rest.foldl (fun acc w => max acc w.x1) b := by
  induction rest with
  | nil => intro t a b; exact ⟨rfl, rfl⟩
  | cons w ws ih => intro t a b; simpa [buildStep] using ih _ _ _

/-- A left fold of `max` over the words' `x1` values bounds the seed and
every element, and is attained by the seed or by some element. -/
theorem foldl_max_x1_spec (rest : List Word) :
    ∀ a : ℚ,
      a ≤ rest.foldl (fun acc w => max acc w.x1) a ∧
      (∀ w ∈ rest, w.x1 ≤ rest.foldl (fun acc w => max acc w.x1) a) ∧
      (rest.foldl (fun acc w => max acc w.x1) a = a ∨
        ∃ w ∈ rest, rest.foldl (fun acc w => max acc w.x1) a = w.x1) := by
  induction rest with
  | nil => intro a; exact ⟨le_refl a, by simp, Or.inl rfl⟩
  | cons w ws ih =>
    intro a
    obtain ⟨h1, h2, h3⟩ := ih (max a w.x1)
    refine ⟨le_trans (le_max_left _ _) h1, ?_, ?_⟩
    · intro v hv
      rcases List.mem_cons.mp hv with rfl | hv2
      · exact le_trans (le_max_right _ _) h1
      · exact h2 v hv2
    · rcases h3 with he | ⟨v, hv, he⟩
      · rcases max_cases a w.x1 with ⟨hm, _⟩ | ⟨hm, _⟩
        · exact Or.inl (by simpa [hm] using he)
        · exact Or.inr ⟨w, by simp, by simpa [hm] using he⟩
      · exact Or.inr ⟨v, by simp [hv], he⟩

theorem x0LE_trans :
    ∀ a b c : Word, x0LE a b = true → x0LE b c = true → x0LE a c = true := by
  intro a b c hab hbc
  simp only [x0LE, decide_eq_true_eq] at *
  exact le_trans hab hbc

theorem x0LE_total : ∀ a b : Word, (x0LE a b || x0LE b a) = true := by
  intro a b
  simp only [x0LE, Bool.or_eq_true, decide_eq_true_eq]
  exact le_total a.x0 b.x0

theorem sortByX0_ne_nil (ws : List Word) (h : ws ≠ []) : sortByX0 ws ≠ [] := by
  intro hnil
  have hlen := (List.mergeSort_perm ws x0LE).length_eq
  rw [show ws.mergeSort x0LE = sortByX0 ws from rfl, hnil] at hlen
  exact h (List.length_eq_zero.mp hlen.symm)

/-- The head of the `x0`-sorted list is a leftmost word of the group. -/
theorem sortByX0_head_min (ws : List Word) (w0 : Word) (rest : List Word)
    (h : sortByX0 ws = w0 :: rest) : ∀ w ∈ ws, w0.x0 ≤ w.x0 := by
  intro w hw
  have hmem : w ∈ w0 :: rest := by
    rw [← h, sortByX0]
    exact List.mem_mergeSort.mpr hw
  have hs : List.Pairwise (fun a b => x0LE a b = true) (w0 :: rest) := by
    rw [← h, sortByX0]
    exact List.sorted_mergeSort x0LE_trans x0LE_total ws
  rcases List.mem_cons.mp hmem with rfl | hw2
  · exact le_refl _
  · have hle := (List.pairwise_cons.mp hs).1 w hw2
    simpa [x0LE] using hle

theorem topX0LE_trans :
    ∀ a b c : Word, topX0LE a b = true → topX0LE b c = true → topX0LE a c = true := by
  intro a b c hab hbc
  simp only [topX0LE, Bool.or_eq_true, Bool.and_eq_true, decide_eq_true_eq] at *
  rcases hab with h1 | ⟨h1, h1x⟩ <;> rcases hbc with h2 | ⟨h2, h2x⟩
  · exact Or.inl (lt_trans h1 h2)
  · exact Or.inl (h2 ▸ h1)
  · exact Or.inl (h1 ▸ h2)
  · exact Or.inr ⟨h1.trans h2, h1x.trans h2x⟩

theorem topX0LE_total : ∀ a b : Word, (topX0LE a b || topX0LE b a) = true := by
  intro a b
  simp only [topX0LE, Bool.or_eq_true, Bool.and_eq_true, decide_eq_true_eq]
  rcases lt_trichotomy a.top b.top with h | h | h
  · exact Or.inl (Or.inl h)
  · rcases le_total a.x0 b.x0 with hx | hx
    · exact Or.inl (Or.inr ⟨h, hx⟩)
    · exact Or.inr (Or.inr ⟨h.symm, hx⟩)
  · exact Or.inr (Or.inl h)

theorem topX0LE_top_le (a b : Word) (h : topX0LE a b = true) : a.top ≤ b.top := by
  simp only [topX0LE, Bool.or_eq_true, Bool.and_eq_true, decide_eq_true_eq] at h
  rcases h with h | ⟨h, _⟩
  · exact h.le
  · exact h.le

/-- Concatenating the clusters produced by the sweep loop recovers the input
in order, with the open cluster in front. -/
theorem groupGo_flatten (lineTol : ℚ) (ws : List Word) :
    ∀ (current : List Word) (currentTop : ℚ),
      (groupGo lineTol ws current currentTop).flatten = current ++ ws := by
  induction ws with
  | nil => intro c t; simp [groupGo]
  | cons w rest ih =>
    intro c t
    rw [groupGo]
    split
    · simp [ih]
    · simp [ih]

/-- All clusters produced by the sweep loop are non-empty when the open
cluster is. -/
theorem groupGo_ne_nil (lineTol : ℚ) (ws : List Word) :
    ∀ (current : List Word) (currentTop : ℚ), current ≠ [] →
      ∀ g ∈ groupGo lineTol ws current currentTop, g ≠ [] := by
  induction ws with
  | nil =>
    intro c t hc g hg
    rw [groupGo] at hg
    simp only [List.mem_singleton] at hg
    subst hg
    exact hc
  | cons w rest ih =>
    intro c t hc g hg
    rw [groupGo] at hg
    split at hg
    · exact ih _ _ (by simp) g hg
    · rcases List.mem_cons.mp hg with rfl | hg2
      · exact hc
      · exact ih _ _ (by simp) g hg2

/-! Claim theorems. -/

/-- Claim C1: the replacement operation treats a region as belonging to the
dimension class exactly when `|width - targetWidth| ≤ tolerance` and
`|height - targetHeight| ≤ tolerance`; both bounds are inclusive, so a
region differing from the reference by exactly the tolerance still matches;
and each candidate is compared only against the fixed reference values
(membership in the matched set depends on that candidate alone, never on a
cluster centroid). -/
theorem C1_dimension_class_match (b : Box) (targetW targetH tol : ℚ) :
    (boxMatches b targetW targetH tol = true ↔
      |b.width - targetW| ≤ tol ∧ |b.height - targetH| ≤ tol) ∧
    (|b.width - targetW| = tol → |b.height - targetH| ≤ tol →
      boxMatches b targetW targetH tol = true) ∧
    (∀ boxes : List Box,
      b ∈ boxes.filter (fun c => boxMatches c targetW targetH tol) ↔
        b ∈ boxes ∧ boxMatches b targetW targetH tol = true) := by
  refine ⟨by simp [boxMatches], fun h1 h2 => by simp [boxMatches, h1.le, h2],
    fun boxes => by simp [List.mem_filter]⟩

/-- Witness for C1: a 100x20 region matches the reference (98, 19) at
tolerance 2, where the width differs by exactly the tolerance. -/
theorem C1_witness :
    boxMatches ⟨0, 0, 100, 10, 100, 20, 0⟩ 98 19 2 = true :=
  (C1_dimension_class_match ⟨0, 0, 100, 10, 100, 20, 0⟩ 98 19 2).2.1
    (by norm_num) (by norm_num)

/-- Claim C2: `apply_replacements` returns the number of detected boxes matching
the dimension class; when no box matches it performs zero mutations (the
page list is returned exactly as it was, with count 0); and when it does
mutate, every page other than the current one is left unchanged. -/
theorem C2_raster_replacement_guard (pages : List Page) (cur : ℕ) (boxes : List Box)
    (tW tH : ℚ) (text : String) (tol : ℚ) :
    ((applyReplacements pages cur boxes tW tH text tol).2 =
      (boxes.filter (fun b => boxMatches b tW tH tol)).length) ∧
    ((∀ b ∈ boxes, boxMatches b tW tH tol = false) →
      applyReplacements pages cur boxes tW tH text tol = (pages, 0)) ∧
    (∀ i, i ≠ cur →
      (applyReplacements pages cur boxes tW tH text tol).1.getD i (.src 0 0 0) =
        pages.getD i (.src 0 0 0)) := by
  refine ⟨?_, ?_, ?_⟩
  · rw [applyReplacements]
    split <;> rfl
  · intro h
    have hf : boxes.filter (fun b => boxMatches b tW tH tol) = [] := by
      simp only [List.filter_eq_nil_iff]
      intro b hb
      simp [h b hb]
    rw [applyReplacements]
    simp [hf]
  · intro i hi
    rw [applyReplacements]
    split
    · simp [List.getD, List.getElem?_set_ne (Ne.symm hi)]
    · rfl

/-- Witness for C2: on a one-page document whose only detected box is 10x10,
replacing the 100x20 class mutates nothing and returns count 0. -/
theorem C2_witness :
    applyReplacements [.src 0 612 792] 0 [⟨0, 0, 10, 10, 10, 10, 0⟩] 100 20 "X" 2 =
      ([.src 0 612 792], 0) :=
  (C2_raster_replacement_guard [.src 0 612 792] 0 [⟨0, 0, 10, 10, 10, 10, 0⟩] 100 20 "X" 2).2.1
    (by intro b hb; simp at hb; subst hb; norm_num [boxMatches])

/-- Claim C3: a connected component's pixel-space bounding box yields a candidate
region if and only if its width exceeds 20, its height exceeds 10, and its
width and height are below 0.8 times the page's pixel width and height. -/
theorem C3_raster_size_filter (pixW pixH : ℕ) (cur : ℕ) (contours : List PixBox) (r : Box) :
    r ∈ findBoxesOnPage pixW pixH cur contours ↔
      ∃ b ∈ contours,
        (20 < b.w ∧ 10 < b.h ∧ (b.w : ℚ) < (8/10) * pixW ∧ (b.h : ℚ) < (8/10) * pixH) ∧
        r = boxToRegion cur b := by
  simp only [findBoxesOnPage, List.mem_map, List.mem_filter, keepBox, Bool.and_eq_true,
    decide_eq_true_eq]
  constructor
  · rintro ⟨b, ⟨hb, ⟨⟨⟨h1, h2⟩, h3⟩, h4⟩⟩, rfl⟩
    exact ⟨b, hb, ⟨h1, h2, by linarith [h3], by linarith [h4]⟩, rfl⟩
  · rintro ⟨b, hb, ⟨h1, h2, h3, h4⟩, rfl⟩
    exact ⟨b, ⟨hb, ⟨⟨⟨h1, h2⟩, by linarith⟩, by linarith⟩⟩, rfl⟩

/-- Claim C4: a surviving pixel box `(x, y, w, h)` maps to the document-space rect
`(x/2, y/2, (x+w)/2, (y+h)/2)` by exact rational division with no rounding
in the mapping; rounding to one decimal digit is applied only to the
finalized region's width and height, which equal `round1(w/2)` and
`round1(h/2)`. -/
theorem C4_coordinate_mapping_exact (b : PixBox) (cur : ℕ) :
    (boxToRegion cur b).x0 = (b.x : ℚ) / 2 ∧
    (boxToRegion cur b).y0 = (b.y : ℚ) / 2 ∧
    (boxToRegion cur b).x1 = ((b.x : ℚ) + (b.w : ℚ)) / 2 ∧
    (boxToRegion cur b).y1 = ((b.y : ℚ) + (b.h : ℚ)) / 2 ∧
    (boxToRegion cur b).width = round1 ((b.w : ℚ) / 2) ∧
    (boxToRegion cur b).height = round1 ((b.h : ℚ) / 2) := by
  have hw : ((b.x : ℚ) + (b.w : ℚ)) / 2 - (b.x : ℚ) / 2 = (b.w : ℚ) / 2 := by ring
  have hh : ((b.y : ℚ) + (b.h : ℚ)) / 2 - (b.y : ℚ) / 2 = (b.h : ℚ) / 2 := by ring
  refine ⟨rfl, rfl, rfl, rfl, ?_, ?_⟩
  · show round1 (((b.x : ℚ) + (b.w : ℚ)) / 2 - (b.x : ℚ) / 2) = round1 ((b.w : ℚ) / 2)
    rw [hw]
  · show round1 (((b.y : ℚ) + (b.h : ℚ)) / 2 - (b.y : ℚ) / 2) = round1 ((b.h : ℚ) / 2)
    rw [hh]

/-- Claim C5: in the clustering sweep, a word joins the open cluster exactly when
its top is within the tolerance of the running average top, in which case
the average is updated as `(oldAvg * (n-1) + top) / n` with `n` the new
cluster size; a word failing the test closes the cluster and opens a new
one; and words at tops 10, 10.5, 11, 20 with tolerance 2 produce exactly the
two clusters {10, 10.5, 11} and {20}. -/
theorem C5_running_average_clustering (lineTol : ℚ) :
    (∀ (w : Word) (rest current : List Word) (currentTop : ℚ),
        |w.top - currentTop| ≤ lineTol →
        groupGo lineTol (w :: rest) current currentTop =
          groupGo lineTol rest (current ++ [w])
            ((currentTop * (((current.length : ℚ) + 1) - 1) + w.top) /
              ((current.length : ℚ) + 1))) ∧
    (∀ (w : Word) (rest current : List Word) (currentTop : ℚ),
        ¬ |w.top - currentTop| ≤ lineTol →
        groupGo lineTol (w :: rest) current currentTop =
          current :: groupGo lineTol rest [w] w.top) ∧
    (groupWordsIntoLines [mkWord 10 0, mkWord (21/2) 0, mkWord 11 0, mkWord 20 0] 2 =
      [[mkWord 10 0, mkWord (21/2) 0, mkWord 11 0], [mkWord 20 0]]) := by
  refine ⟨?_, ?_, ?_⟩
  · intro w rest current currentTop h
    rw [groupGo]
    simp only [h, if_true, List.length_append, List.length_cons, List.length_nil]
    push_cast
    ring_nf
  · intro w rest current currentTop h
    rw [groupGo]
    simp [h]
  · norm_num [groupWordsIntoLines, sortWords, topX0LE, groupGo, mkWord, List.mergeSort, abs_le]

/-- Witness for C5: a word at top 20 fails the tolerance-2 test against the
running average 10, closing the current cluster and opening a new one. -/
theorem C5_witness :
    groupGo 2 [mkWord 20 0] [mkWord 10 0] 10 =
      [mkWord 10 0] :: groupGo 2 [] [mkWord 20 0] (mkWord 20 0).top :=
  (C5_running_average_clustering 2).2.1 (mkWord 20 0) [] [mkWord 10 0] 10
    (by norm_num [mkWord, abs_le])

/-- Claim C6: for a subsequent word with gap `x0 - prev_x1`: a positive gap emits
`max(1, round(gap / max(0.5, spaceUnit)))` spaces; a non-positive gap emits
one space when `gap > -0.3 * spaceUnit` and no separator otherwise; in
particular with spaceUnit 3 a gap of 9 yields exactly 3 spaces and a gap of
-1 yields zero spaces. -/
theorem C6_whitespace_quantization :
    (∀ (w1 w2 : Word) (su g : ℚ), w1.x0 ≤ w2.x0 → g = w2.x0 - w1.x1 → 0 < g →
        ∃ a b c d, buildLineText [w1, w2] su 1 =
          some (w1.text ++ spaces (max 1 (pyRound (g / max (1/2) su))) ++ w2.text,
            a, b, c, d)) ∧
    (∀ (w1 w2 : Word) (su g : ℚ), w1.x0 ≤ w2.x0 → g = w2.x0 - w1.x1 → g ≤ 0 →
        -(su * (3/10)) < g →
        ∃ a b c d, buildLineText [w1, w2] su 1 = some (w1.text ++ " " ++ w2.text, a, b, c, d)) ∧
    (∀ (w1 w2 : Word) (su g : ℚ), w1.x0 ≤ w2.x0 → g = w2.x0 - w1.x1 → g ≤ 0 →
        ¬(-(su * (3/10)) < g) →
        ∃ a b c d, buildLineText [w1, w2] su 1 = some (w1.text ++ w2.text, a, b, c, d)) ∧
    (buildLineText [⟨"a", 90, 100, 0, 10, none⟩, ⟨"b", 109, 120, 0, 10, none⟩] 3 1 =
      some ("a" ++ spaces 3 ++ "b", 90, 120, 0, 10)) ∧
    (buildLineText [⟨"a", 90, 100, 0, 10, none⟩, ⟨"b", 99, 120, 0, 10, none⟩] 3 1 =
      some ("a" ++ "b", 90, 120, 0, 10)) := by
  refine ⟨?_, ?_, ?_, ?_, ?_⟩
  · intro w1 w2 su g hx hg hpos
    subst hg
    rw [buildLineText, sortByX0_pair w1 w2 hx]
    simp only [List.foldl_cons, List.foldl_nil, buildStep, sepFor, hpos, if_true]
    exact ⟨_, _, _, _, rfl⟩
  · intro w1 w2 su g hx hg hle hgt
    subst hg
    rw [buildLineText, sortByX0_pair w1 w2 hx]
    simp only [List.foldl_cons, List.foldl_nil, buildStep, sepFor, not_lt.mpr hle,
      if_false, hgt, if_true]
    exact ⟨_, _, _, _, rfl⟩
  · intro w1 w2 su g hx hg hle hng
    subst hg
    rw [buildLineText, sortByX0_pair w1 w2 hx]
    simp only [List.foldl_cons, List.foldl_nil, buildStep, sepFor, not_lt.mpr hle,
      if_false, hng, String.append_empty]
    exact ⟨_, _, _, _, rfl⟩
  · norm_num [buildLineText, sortByX0, x0LE, List.mergeSort, buildStep, sepFor, spaces,
      pyRound, medianAt, sortQ, qLE]
  · norm_num [buildLineText, sortByX0, x0LE, List.mergeSort, buildStep, sepFor, spaces,
      pyRound, medianAt, sortQ, qLE]

/-- Witness for C6: two words with `x1 = 100` and `x0 = 109` (gap 9) at
spaceUnit 3 are joined by `max(1, round(9 / 3))` spaces. -/
theorem C6_witness :
    ∃ a b c d,
      buildLineText [⟨"a", 90, 100, 0, 10, none⟩, ⟨"b", 109, 120, 0, 10, none⟩] 3 1 =
        some ("a" ++ spaces (max 1 (pyRound (9 / max (1/2) 3))) ++ "b", a, b, c, d) :=
  C6_whitespace_quantization.1 ⟨"a", 90, 100, 0, 10, none⟩ ⟨"b", 109, 120, 0, 10, none⟩ 3 9
    (by norm_num) (by norm_num) (by norm_num)

/-- Counterexample to claim C7: `build_line_text` returns a 5-tuple, not the
claimed 4-tuple — on a concrete two-word group the result is
`("ab cd", 0, 20, 5, 10)`, whose third component 20 (the running maximal
`x1`) differs from every component of the claimed 4-tuple
`(text, firstWordX0 = 0, medianTop = 5, fontSize = 10)`. -/
theorem C7_counterexample :
    buildLineText [⟨"ab", 0, 10, 5, 15, none⟩, ⟨"cd", 12, 20, 5, 15, none⟩] 3 1 =
      some ("ab cd", 0, 20, 5, 10) ∧
    (20 : ℚ) ≠ 0 ∧ (20 : ℚ) ≠ 5 ∧ (20 : ℚ) ≠ 10 := by
  refine ⟨?_, by norm_num, by norm_num, by norm_num⟩
  norm_num [buildLineText, sortByX0, x0LE, List.mergeSort, buildStep, sepFor, spaces,
    pyRound, medianAt, sortQ, qLE]
  rfl

/-- Claim C7 as amended: for every non-empty clustered word group,
`build_line_text` returns exactly the 5-tuple
`(text, firstWordX0, lastX1, medianTop, representativeFontSize)`: the second
component is the `x0` of the leftmost word after re-sorting by `x0`, the
third is the running maximum of the group's `x1` values (attained by some
word), the fourth the median top; the caller keeps only four of the five. -/
theorem C7_amended_five_tuple (lineWords : List Word) (su : ℚ) (ms : ℤ)
    (h : lineWords ≠ []) :
    ∃ w0 rest text lastX1 fs,
      sortByX0 lineWords = w0 :: rest ∧
      buildLineText lineWords su ms =
        some (text, w0.x0, lastX1, medianAt ((w0 :: rest).map (fun w => w.top)), fs) ∧
      (∀ w ∈ lineWords, w0.x0 ≤ w.x0) ∧
      (∀ w ∈ lineWords, w.x1 ≤ lastX1) ∧
      (∃ w ∈ lineWords, lastX1 = w.x1) := by
  obtain ⟨w0, rest, hsort⟩ : ∃ w0 rest, sortByX0 lineWords = w0 :: rest := by
    cases hs : sortByX0 lineWords with
    | nil => exact absurd hs (sortByX0_ne_nil lineWords h)
    | cons a l => exact ⟨a, l, rfl⟩
  have hmem : ∀ w, w ∈ lineWords ↔ w ∈ w0 :: rest := by
    intro w
    rw [← hsort, sortByX0, List.mem_mergeSort]
  obtain ⟨hp1, _⟩ :=
    buildStep_foldl_proj su ms rest w0.text w0.x1 w0.x1
  obtain ⟨hm1, hm2, hm3⟩ := foldl_max_x1_spec rest w0.x1
  obtain ⟨fs, heq⟩ :
      ∃ fs, buildLineText lineWords su ms =
        some ((rest.foldl (buildStep su ms) (w0.text, w0.x1, w0.x1)).1, w0.x0,
          (rest.foldl (buildStep su ms) (w0.text, w0.x1, w0.x1)).2.1,
          medianAt ((w0 :: rest).map (fun w => w.top)), fs) := by
    rw [buildLineText, hsort]
    exact ⟨_, rfl⟩
  refine ⟨w0, rest, (rest.foldl (buildStep su ms) (w0.text, w0.x1, w0.x1)).1,
    (rest.foldl (buildStep su ms) (w0.text, w0.x1, w0.x1)).2.1, fs, hsort, heq, ?_, ?_, ?_⟩
  · exact sortByX0_head_min lineWords w0 rest hsort
  · intro w hw
    rw [hp1]
    rcases List.mem_cons.mp ((hmem w).mp hw) with rfl | hw2
    · exact hm1
    · exact hm2 w hw2
  · rw [hp1]
    rcases hm3 with he | ⟨v, hv, he⟩
    · exact ⟨w0, (hmem w0).mpr (List.mem_cons_self _ _), he⟩
    · exact ⟨v, (hmem v).mpr (List.mem_cons_of_mem _ hv), he⟩

/-- Witness for the amended C7, at a concrete one-word group. -/
theorem C7_amended_witness :
    ∃ w0 rest text lastX1 fs,
      sortByX0 [(⟨"ab", 0, 10, 5, 15, none⟩ : Word)] = w0 :: rest ∧
      buildLineText [(⟨"ab", 0, 10, 5, 15, none⟩ : Word)] 3 1 =
        some (text, w0.x0, lastX1, medianAt ((w0 :: rest).map (fun w => w.top)), fs) ∧
      (∀ w ∈ [(⟨"ab", 0, 10, 5, 15, none⟩ : Word)], w0.x0 ≤ w.x0) ∧
      (∀ w ∈ [(⟨"ab", 0, 10, 5, 15, none⟩ : Word)], w.x1 ≤ lastX1) ∧
      (∃ w ∈ [(⟨"ab", 0, 10, 5, 15, none⟩ : Word)], lastX1 = w.x1) :=
  C7_amended_five_tuple [⟨"ab", 0, 10, 5, 15, none⟩] 3 1 (by simp)

/-- Claim C8: the source emits the "no text stream — using OCR" warning exactly
when `ocr_mode` is False, in both `create_html_from_text` and
`show_unredacted_results` — the opposite of the claimed (and evidently
intended) behavior of warning exactly when OCR fallback was used. -/
theorem C8_ocr_warning_inverted :
    createHtmlWarningIncluded true = false ∧
    createHtmlWarningIncluded false = true ∧
    showResultsWarningIncluded true true = false ∧
    showResultsWarningIncluded true false = true := by
  refine ⟨rfl, rfl, rfl, rfl⟩

/-- Claim C9: the (spec-modelled) vector region detector keeps an enumerated fill
primitive if and only if its rect's width and height both exceed 5 document
units and every fill-color channel (default `[0,0,0]`) is strictly below
0.3; in particular a primitive with fill color `[0.5, 0, 0]` is never
returned, regardless of its size. -/
theorem C9_vector_detector_filter (prims : List FillPrim) (p : FillPrim) :
    (p ∈ detectVectorRegions prims ↔
      p ∈ prims ∧ 5 < p.x1 - p.x0 ∧ 5 < p.y1 - p.y0 ∧
        ∀ c ∈ p.fillColor.getD [0, 0, 0], c < 3/10) ∧
    (p.fillColor = some [1/2, 0, 0] → p ∉ detectVectorRegions prims) := by
  constructor
  · simp [detectVectorRegions, vectorKeep, List.mem_filter, List.all_eq_true, and_assoc]
  · intro h hm
    rw [detectVectorRegions, List.mem_filter] at hm
    have hk := hm.2
    rw [vectorKeep, h] at hk
    simp at hk
    norm_num at hk

/-- Witness for C9: a large 50x50 primitive with fill color `[0.5, 0, 0]` is
not detected. -/
theorem C9_witness :
    (⟨0, 0, 50, 50, some [1/2, 0, 0]⟩ : FillPrim) ∉
      detectVectorRegions [⟨0, 0, 50, 50, some [1/2, 0, 0]⟩] :=
  (C9_vector_detector_filter [⟨0, 0, 50, 50, some [1/2, 0, 0]⟩]
    ⟨0, 0, 50, 50, some [1/2, 0, 0]⟩).2 rfl

/-- Claim C10: `group_words_into_lines` is an order-preserving partition: it maps
the empty list to the empty list, every returned group is non-empty,
concatenating the groups in order yields exactly the input sorted by
`(top, x0)` (no word dropped or duplicated), and successive groups occur in
non-decreasing order of their words' top values. -/
theorem C10_order_preserving_partition (ws : List Word) (lineTol : ℚ) :
    (groupWordsIntoLines [] lineTol = []) ∧
    (∀ g ∈ groupWordsIntoLines ws lineTol, g ≠ []) ∧
    ((groupWordsIntoLines ws lineTol).flatten = sortWords ws) ∧
    List.Pairwise (fun g1 g2 => ∀ a ∈ g1, ∀ b ∈ g2, a.top ≤ b.top)
      (groupWordsIntoLines ws lineTol) := by
  have hflat : (groupWordsIntoLines ws lineTol).flatten = sortWords ws := by
    rw [groupWordsIntoLines]
    cases hs : sortWords ws with
    | nil => simp
    | cons w rest => simp [groupGo_flatten]
  refine ⟨by simp [groupWordsIntoLines, sortWords, List.mergeSort], ?_, hflat, ?_⟩
  · rw [groupWordsIntoLines]
    cases hs : sortWords ws with
    | nil => simp
    | cons w rest => exact groupGo_ne_nil lineTol rest [w] w.top (by simp)
  · have hsorted :
        List.Pairwise (fun a b => topX0LE a b = true)
          (groupWordsIntoLines ws lineTol).flatten := by
      rw [hflat, sortWords]
      exact List.sorted_mergeSort topX0LE_trans topX0LE_total ws
    have hgroups := (List.pairwise_flatten.mp hsorted).2
    exact hgroups.imp (fun h a ha b hb => topX0LE_top_le a b (h a ha b hb))

/-- Witness for C10: on a one-word input, the single returned group is
non-empty. -/
theorem C10_witness :
    [mkWord 10 0] ∈ groupWordsIntoLines [mkWord 10 0] 2 ∧
    [mkWord 10 0] ≠ ([] : List Word) := by
  have hmem : [mkWord 10 0] ∈ groupWordsIntoLines [mkWord 10 0] 2 := by
    simp [groupWordsIntoLines, sortWords, List.mergeSort, groupGo]
  exact ⟨hmem, (C10_order_preserving_partition [mkWord 10 0] 2).2.1 [mkWord 10 0] hmem⟩

end Unredact
